import Mathlib

/-!
Shallow embedding of the fsmonitor package (periodic file-system scanner).

The embedding follows the Go source:
  * notice.go        : Event bit-flags, fileSystemNotice
  * monitor.go       : Monitor.Start (dispatch loop), Monitor.Stop, New
  * pathScanner.Watch: the scan worker (one diff cycle per received buffer)

Machine integers (uint32 event flags, int64 sizes, time.Time) are modelled
as Nat / Int; all values in play are tiny so no overflow wrapping occurs.
`os.FileInfo` is modelled by the three fields the package reads
(ModTime, Size, IsDir); `time.Time` ordering is total, so Int models it.
The `timestamp` field of fileSystemNotice is `time.Now()` (wall clock) and
is not modelled: no claim depends on it.
-/

namespace Fsmonitor

/-- Event bit-flags (notice.go): `FileCreate Event = 0x01 << iota`. -/
def FileCreate : Nat := 1

/-- `FileUpdate = 0x02` (notice.go). -/
def FileUpdate : Nat := 2

/-- `FileRemove = 0x04` (notice.go). -/
def FileRemove : Nat := 4

/-- `FileRename = 0x08` (notice.go). -/
def FileRename : Nat := 8

/-- The fields of `os.FileInfo` that this package reads. `modTime` models
`time.Time` through its total order; `ModTime().After(t)` is strict `>`. -/
structure FileInfo where
  modTime : Int
  size : Int
  isDir : Bool
deriving DecidableEq, Repr

/-- `fileSystemNotice` (notice.go) without its wall-clock `timestamp` field
(`time.Now()`), which no claim depends on. -/
structure FileSystemNotice where
  path : String
  event : Nat
  fileinfo : FileInfo
deriving DecidableEq, Repr

/-- A `map[string]os.FileInfo` value, as an association list.  Go map keys are
unique; theorems carry the corresponding `Nodup` hypothesis where needed. -/
abbrev Snapshot := List (String × FileInfo)

/-- Go map indexing `m[file]` for a `Snapshot`. -/
def lookupFile : Snapshot → String → Option FileInfo
  | [], _ => none
  | (g, i) :: rest, f => if g = f then some i else lookupFile rest f

/-- A `regexp.Regexp` value as it occurs in this package: either the zero
value of the struct type (produced by `make([]regexp.Regexp, n, n)` and never
compiled — calling a matching method on it faults on its nil program), or a
successfully compiled pattern, abstracted by the predicate saying whether
`FindStringIndex` returns a non-nil slice.  The regexp engine itself is Go
standard library, outside this repository, so compiled patterns are opaque. -/
inductive GoRegexp where
  | zeroValue
  | compiled (hit : String → Bool)

/-- `re.FindStringIndex(file) != nil`: `some b` for a compiled pattern,
`none` (runtime fault) for the zero value, whose match machinery has a nil
program. -/
def findStringIndexSome : GoRegexp → String → Option Bool
  | GoRegexp.zeroValue, _ => none
  | GoRegexp.compiled m, file => some (m file)

/-- The `for _, re := range s.pattern { if re.FindStringIndex(file) != nil
{ matched = true; break } }` loop of pathScanner.Watch, starting from
`matched = false`. -/
def matchLoop : List GoRegexp → String → Option Bool
  | [], _ => some false
  | re :: rest, file =>
    match findStringIndexSome re file with
    | none => none
    | some true => some true
    | some false => matchLoop rest file

/-- `matched := false || len(s.pattern) == 0` followed by the match loop
(pathScanner.Watch, the pattern filter). -/
def matchedCompute (pattern : List GoRegexp) (file : String) : Option Bool :=
  if pattern.length = 0 then some true else matchLoop pattern file

/-- The mutable state of one scan cycle: `visited`, `created` and the
sequence of notices sent on the `changed` buffer so far. -/
structure CycleAcc where
  visited : Snapshot
  created : Nat
  notices : List FileSystemNotice
deriving DecidableEq, Repr

/-- The body of the `filepath.Walk` callback in pathScanner.Watch for one
visited entry (called with a nil incoming error): skip directories, apply the
pattern filter, then the per-item diff against `lastCheck`
(`nil` map modelled as `none`), then `visited[file] = info`.
`none` models a runtime fault inside the pattern loop. -/
def processEntry (lastCheck : Option Snapshot) (pattern : List GoRegexp)
    (acc : CycleAcc) (entry : String × FileInfo) : Option CycleAcc :=
  let file := entry.1
  let info := entry.2
  if info.isDir then some acc else
  match matchedCompute pattern file with
  | none => none
  | some false => some acc
  | some true =>
    let acc1 : CycleAcc :=
      match lastCheck with
      | none => acc
      | some prev =>
        match lookupFile prev file with
        | some oldinfo =>
          if oldinfo.modTime < info.modTime then
            { acc with notices := acc.notices ++ [⟨file, FileUpdate, info⟩] }
          else if oldinfo.size ≠ info.size then
            { acc with notices := acc.notices ++ [⟨file, FileUpdate, info⟩] }
          else acc
        | none =>
          { acc with notices := acc.notices ++ [⟨file, FileCreate, info⟩],
                     created := acc.created + 1 }
    some { acc1 with visited := acc1.visited ++ [(file, info)] }

/-- The traversal: `filepath.Walk` delivers the entries in traversal order;
the callback processes each in turn (an aborting walk simply delivers a
shorter entry list, plus the non-nil error returned by Walk, see
`scanCycle`). -/
def runWalk (lastCheck : Option Snapshot) (pattern : List GoRegexp) :
    List (String × FileInfo) → CycleAcc → Option CycleAcc
  | [], acc => some acc
  | e :: es, acc =>
    match processEntry lastCheck pattern acc e with
    | none => none
    | some acc1 => runWalk lastCheck pattern es acc1

/-- The removal pass of pathScanner.Watch: for every entry of `lastCheck`
absent from `visited`, send a FileRemove notice (iteration in the snapshot's
list order). -/
def removalPass (lastCheck : Snapshot) (visited : Snapshot) :
    List FileSystemNotice :=
  (lastCheck.filter (fun p => (lookupFile visited p.1).isNone)).map
    (fun p => ⟨p.1, FileRemove, p.2⟩)

/-- The outcome of one iteration of the worker's `for changed := range ncc`
loop: the notices sent on the buffer, the new `s.lastCheck`, and the value
sent on the `errors` status channel. -/
structure CycleResult where
  notices : List FileSystemNotice
  lastCheck : Snapshot
  walkErr : Option String
deriving DecidableEq, Repr

/-- One complete scan cycle of pathScanner.Watch (also Monitor.scan in the
earlier revision): run the walk callback over the entries the traversal
delivers (`walkErr` is the error `filepath.Walk` returns; a non-nil error
means the traversal aborted after exactly these entries), then the guarded
removal pass `if s.lastCheck != nil && len(s.lastCheck) > (len(visited) -
created)`, then the unconditional `s.lastCheck = visited`, then
`errors <- err`.  `none` models a runtime fault. -/
def scanCycle (lastCheck : Option Snapshot) (pattern : List GoRegexp)
    (entries : List (String × FileInfo)) (walkErr : Option String) :
    Option CycleResult :=
  match runWalk lastCheck pattern entries ⟨[], 0, []⟩ with
  | none => none
  | some acc =>
    let rems : List FileSystemNotice :=
      match lastCheck with
      | none => []
      | some prev =>
        if (prev.length : Int) > (acc.visited.length : Int) - (acc.created : Int)
        then removalPass prev acc.visited
        else []
    some ⟨acc.notices ++ rems, acc.visited, walkErr⟩

/-- The delivery loop of Monitor.Start (monitor.go lines 59-65):
`for _, e := range event { if e == n.Type() { m.notices <- n } }`;
returns the sequence of copies of `n` forwarded on the outbound stream. -/
def forwardNotice (event : List Nat) (n : FileSystemNotice) :
    List FileSystemNotice :=
  event.foldl (fun sent e => if e = n.event then sent ++ [n] else sent) []

/-- The pattern-compilation part of `New` (monitor.go lines 121-134):
`patexp := make([]regexp.Regexp, len(pattern), len(pattern))` followed by
`patexp = append(patexp, *exp)` for each pattern that compiles.  Each raw
pattern string that compiles is abstracted by its match predicate. -/
def newPatexp (pattern : List (String → Bool)) : List GoRegexp :=
  List.replicate pattern.length GoRegexp.zeroValue ++
    pattern.map GoRegexp.compiled

/-- Monitor.Stop (monitor.go lines 101-118): `err` starts nil; the value `e`
received from the stopper channel is wrapped into a non-nil error when
non-nil, else `err` stays nil and is returned. -/
def stopReturn : Option String → Option String
  | some e => some ("Scanner Error: " ++ e)
  | none => none

/-- The notices the walk callback sends for one non-directory entry that
passes the pattern filter (the per-item diff of pathScanner.Watch, lines
77-102), read off as a function of the previous snapshot. -/
def entryNotice (lastCheck : Option Snapshot) (e : String × FileInfo) :
    List FileSystemNotice :=
  match lastCheck with
  | none => []
  | some prev =>
    match lookupFile prev e.1 with
    | some old =>
      if old.modTime < e.2.modTime then [⟨e.1, FileUpdate, e.2⟩]
      else if old.size ≠ e.2.size then [⟨e.1, FileUpdate, e.2⟩]
      else []
    | none => [⟨e.1, FileCreate, e.2⟩]

/-- The forward pass of a cycle as the concatenation of the per-entry
notices, in traversal order. -/
def forwardNotices (lastCheck : Option Snapshot) :
    List (String × FileInfo) → List FileSystemNotice
  | [] => []
  | e :: es => entryNotice lastCheck e ++ forwardNotices lastCheck es

/-- The value of the worker's `created` counter over a list of entries:
one per entry absent from the previous snapshot (and none at all on the very
first scan, whose `lastCheck` is the nil map). -/
def createdCount : Option Snapshot → List (String × FileInfo) → Nat
  | _, [] => 0
  | lastCheck, e :: es =>
    (match lastCheck with
     | none => 0
     | some prev => if (lookupFile prev e.1).isSome then 0 else 1)
    + createdCount lastCheck es

/-- The entries a walk installs into `visited`: non-directories passing the
pattern filter; `none` when the pattern loop faults on a zero-valued
Regexp. -/
def matchedEntries (pattern : List GoRegexp) :
    List (String × FileInfo) → Option (List (String × FileInfo))
  | [] => some []
  | e :: es =>
    if e.2.isDir then matchedEntries pattern es
    else
      match matchedCompute pattern e.1 with
      | none => none
      | some false => matchedEntries pattern es
      | some true => (matchedEntries pattern es).map (fun v => e :: v)

/-- The notices of a cycle concerning one identity. -/
def noticesFor (f : String) (ns : List FileSystemNotice) :
    List FileSystemNotice :=
  ns.filter (fun n => n.path == f)

/-!
### The dispatch loop of Monitor.Start and Monitor.Stop as a labelled
transition system (monitor.go lines 30-118)

One state covers the select loop of Start, the worker goroutine of
pathScanner.Watch, and the rendezvous channels between them:

  * `timerArmed`: `timeTick` is a live channel (it is set to `nil` right
    after a request is issued, and re-armed in the error-channel branch);
  * `nccClosed`: the Start loop executed `close(ncc)` (closing branch);
  * `inFlight`: number of scan requests handed to the worker and not yet
    reported on the error channel (`ncc <- noticeBuffer` rendezvous);
  * `workerExited`: the worker's `for changed := range ncc` loop ended and
    its deferred `close(errors)` ran;
  * `stopRequested`: Stop sent its `stopper` on `m.closing` and the loop
    received it into `returning`;
  * `released`: once the loop's `!ok` branch runs, the value it sends to the
    caller of Stop (the literal `nil` of `returning <- nil`);
  * `lastReport`: the last cycle status received on the error channel.

The delivery branch (`case n := <-noticeBuffer`) touches none of these
fields and is omitted.  Executions in which the Go program would panic
(a send on the closed `ncc`) are excluded by the transition guards.
-/
structure LoopState where
  timerArmed : Bool
  nccClosed : Bool
  inFlight : Nat
  workerExited : Bool
  stopRequested : Bool
  released : Option (Option String)
  lastReport : Option (Option String)
deriving DecidableEq, Repr

/-- The state on entry to Start's select loop: timer armed, no request
outstanding, worker blocked on `range ncc`. -/
def initLoop : LoopState :=
  ⟨true, false, 0, false, false, none, none⟩

/-- The transitions of the dispatch loop.  Every transition carries the
guard `s.released = none`: once the `!ok` branch has released the caller of
Stop, the loop has returned. -/
inductive LoopStep : LoopState → LoopState → Prop
  /-- `case returning = <-m.closing`: record the stopper, `close(ncc)`. -/
  | closing (s : LoopState) (halive : s.released = none)
      (h : s.stopRequested = false) :
      LoopStep s { s with stopRequested := true, nccClosed := true }
  /-- `case <-timeTick`: requires a live timer; `timeTick = nil` disables the
  branch and `ncc <- noticeBuffer` hands the buffer to the worker, which must
  be blocked at `range ncc` (no cycle in flight, not exited, ncc open). -/
  | tick (s : LoopState) (halive : s.released = none)
      (ht : s.timerArmed = true) (hn : s.nccClosed = false)
      (hb : s.inFlight = 0) (hw : s.workerExited = false) :
      LoopStep s { s with timerArmed := false, inFlight := 1 }
  /-- `case err, ok := <-errorCheck` with `ok`: the worker finished the cycle
  and sent its status; both the error branch (`time.After` cooldown) and the
  nil branch (`time.Tick(sleep)`) leave the timer re-armed. -/
  | report (s : LoopState) (e : Option String) (halive : s.released = none)
      (hb : s.inFlight = 1) :
      LoopStep s
        { s with inFlight := 0, timerArmed := true, lastReport := some e }
  /-- The worker observes the closed `ncc`, leaves `range ncc` and its
  deferred `close(errors)` runs. -/
  | workerExit (s : LoopState) (halive : s.released = none)
      (hn : s.nccClosed = true) (hb : s.inFlight = 0)
      (hw : s.workerExited = false) :
      LoopStep s { s with workerExited := true }
  /-- `case err, ok := <-errorCheck` with `!ok`: the error channel is closed,
  so the worker has returned; drain one buffered notice, `close(noticeBuffer)`
  and `returning <- nil` — the released value is the literal nil. -/
  | statusClosed (s : LoopState) (halive : s.released = none)
      (hw : s.workerExited = true) (hs : s.stopRequested = true) :
      LoopStep s { s with released := some none }

/-- States the pipeline can reach from the start of the select loop. -/
inductive LoopReachable : LoopState → Prop
  | init : LoopReachable initLoop
  | step {s t : LoopState} : LoopReachable s → LoopStep s t → LoopReachable t

/-- A complete concrete run used to settle C4: a scan is started, Stop is
called while it is in flight, the final cycle reports the error
"scan failed", the worker exits, and the loop releases the stopper. -/
def stopTraceFinal : LoopState :=
  ⟨true, true, 0, true, true, some none, some (some "scan failed")⟩

/-! ### The delivery filter (Monitor.Start, monitor.go lines 59-65) -/

theorem forwardNotice_foldl (event : List Nat) (n : FileSystemNotice)
    (acc : List FileSystemNotice) :
    event.foldl (fun sent e => if e = n.event then sent ++ [n] else sent) acc
      = acc ++ List.replicate (event.count n.event) n := by
  induction event generalizing acc with
  | nil => simp
  | cons e es ih =>
    simp only [List.foldl_cons, List.count_cons]
    by_cases h : e = n.event
    · have hbt : (e == n.event) = true := by simp [h]
      rw [if_pos h, ih, if_pos hbt, List.replicate_succ]
      simp
    · have hb : ¬(e == n.event) = true := by simpa using h
      rw [if_neg h, ih, if_neg hb, Nat.add_zero]

/-- C10: each notice drained from the buffer is forwarded once per occurrence
of its exact kind in the variadic event list passed to Start; with an empty
subscription list nothing is ever delivered. -/
theorem delivery_multiplicity_exact_kind (event : List Nat)
    (n : FileSystemNotice) :
    forwardNotice event n = List.replicate (event.count n.event) n := by
  simpa using forwardNotice_foldl event n []

/-- C2 counterexample: the notice kind FileCreate|||FileUpdate includes the
requested kind FileCreate in the bitmask sense, yet the delivery loop of
Start forwards nothing for the subscription list [FileCreate], because the
test is exact equality `e == n.Type()`. -/
theorem subscriber_bitmask_inclusion_counterexample :
    (FileCreate ||| FileUpdate) &&& FileCreate = FileCreate ∧
    forwardNotice [FileCreate]
        ⟨"a.log", FileCreate ||| FileUpdate, ⟨1, 10, false⟩⟩ = [] := by
  decide

/-- C2 (amended): subscriber filtering is exact-equality, not
bitmask-inclusion: a drained notice is forwarded (once per occurrence) if and
only if its kind is literally an element of the requested event list, and
every forwarded value is the notice itself. -/
theorem subscriber_filter_exact_equality (event : List Nat)
    (n : FileSystemNotice) :
    (forwardNotice event n).length = event.count n.event ∧
    (∀ m, m ∈ forwardNotice event n → m = n) ∧
    (forwardNotice event n ≠ [] ↔ n.event ∈ event) := by
  have hf : forwardNotice event n = List.replicate (event.count n.event) n := by
    simpa using forwardNotice_foldl event n []
  refine ⟨by simp [hf], ?_, ?_⟩
  · intro m hm
    rw [hf] at hm
    exact List.eq_of_mem_replicate hm
  · rw [hf]
    constructor
    · intro hne
      by_contra hm
      have h0 : event.count n.event = 0 := by
        by_contra hc
        exact hm (List.count_pos_iff.mp (Nat.pos_of_ne_zero hc))
      rw [h0] at hne
      exact hne rfl
    · intro hm
      have hpos : 0 < event.count n.event := List.count_pos_iff.mpr hm
      intro hnil
      have hlen := congrArg List.length hnil
      simp at hlen
      omega

theorem subscriber_filter_exact_equality_witness :
    (forwardNotice [FileCreate] ⟨"a.log", FileCreate, ⟨1, 10, false⟩⟩).length
      = 1 := by
  have h := (subscriber_filter_exact_equality [FileCreate]
    ⟨"a.log", FileCreate, ⟨1, 10, false⟩⟩).1
  simpa using h

/-! ### Pattern compilation in New (monitor.go lines 121-134) -/

/-- C3: the constructor New builds its compiled-pattern slice with
`make([]regexp.Regexp, len(pattern), len(pattern))` and then appends, so for
the one-element pattern list the slice holds a zero-valued Regexp in front of
the compiled pattern, and the very first scan of any non-directory file
faults inside the pattern loop instead of cleanly including or excluding the
file (the claim's clean `\.log$` filtering never takes place). -/
theorem new_nonempty_pattern_scan_faults (p : String → Bool) (info : FileInfo)
    (h : info.isDir = false) :
    newPatexp [p] = [GoRegexp.zeroValue, GoRegexp.compiled p] ∧
    matchedCompute (newPatexp [p]) "a.txt" = none ∧
    scanCycle none (newPatexp [p]) [("a.txt", info)] none = none := by
  refine ⟨rfl, rfl, ?_⟩
  simp [scanCycle, runWalk, processEntry, h, matchedCompute, matchLoop,
    findStringIndexSome, newPatexp]

theorem new_nonempty_pattern_scan_faults_witness :
    scanCycle none (newPatexp [fun _ => false])
      [("a.txt", ⟨0, 0, false⟩)] none = none :=
  (new_nonempty_pattern_scan_faults (fun _ => false) ⟨0, 0, false⟩ rfl).2.2

/-! ### Supporting lemmas about snapshots and the walk -/

theorem lookupFile_eq_none_iff (l : Snapshot) (f : String) :
    lookupFile l f = none ↔ f ∉ l.map Prod.fst := by
  induction l with
  | nil => simp [lookupFile]
  | cons p rest ih =>
    by_cases hpf : p.1 = f
    · simp [lookupFile, hpf]
    · simp [lookupFile, hpf, ih, Ne.symm hpf]

theorem lookupFile_isSome_iff (l : Snapshot) (f : String) :
    (lookupFile l f).isSome = true ↔ f ∈ l.map Prod.fst := by
  rw [Option.isSome_iff_ne_none, Ne, lookupFile_eq_none_iff]
  exact not_not

theorem lookupFile_mem (l : Snapshot) (e : String × FileInfo)
    (hnd : (l.map Prod.fst).Nodup) (hmem : e ∈ l) :
    lookupFile l e.1 = some e.2 := by
  induction l with
  | nil => cases hmem
  | cons p rest ih =>
    rw [List.map_cons, List.nodup_cons] at hnd
    rcases List.mem_cons.mp hmem with h | h
    · subst h
      simp [lookupFile]
    · have hne : p.1 ≠ e.1 := by
        intro hcontra
        exact hnd.1 (hcontra ▸ List.mem_map_of_mem Prod.fst h)
      simp [lookupFile, hne, ih hnd.2 h]

theorem entryNotice_path (lastCheck : Option Snapshot) (e : String × FileInfo)
    (n : FileSystemNotice) (hn : n ∈ entryNotice lastCheck e) :
    n.path = e.1 := by
  unfold entryNotice at hn
  split at hn
  · cases hn
  · split at hn
    · split_ifs at hn <;> simp_all
    · simp_all

theorem entryNotice_event (lastCheck : Option Snapshot) (e : String × FileInfo)
    (n : FileSystemNotice) (hn : n ∈ entryNotice lastCheck e) :
    n.event = FileCreate ∨ n.event = FileUpdate := by
  unfold entryNotice at hn
  split at hn
  · cases hn
  · split at hn
    · split_ifs at hn <;> simp_all
    · simp_all

/-- With an empty pattern set and no directories among the entries, the walk
visits everything and the cycle state is the concatenation of the per-entry
contributions. -/
theorem runWalk_flat (lastCheck : Option Snapshot)
    (entries : List (String × FileInfo)) (acc : CycleAcc)
    (hd : ∀ e ∈ entries, e.2.isDir = false) :
    runWalk lastCheck [] entries acc
      = some ⟨acc.visited ++ entries,
              acc.created + createdCount lastCheck entries,
              acc.notices ++ forwardNotices lastCheck entries⟩ := by
  revert hd
  induction entries generalizing acc with
  | nil =>
    intro hd
    simp [runWalk, createdCount, forwardNotices]
  | cons e es ih =>
    intro hd
    have he : e.2.isDir = false := hd e (by simp)
    have hes : ∀ x ∈ es, x.2.isDir = false := fun x hx => hd x (by simp [hx])
    have hp : processEntry lastCheck [] acc e
        = some ⟨acc.visited ++ [e],
                acc.created + createdCount lastCheck [e],
                acc.notices ++ entryNotice lastCheck e⟩ := by
      unfold processEntry
      simp only [he, Bool.false_eq_true, if_false, matchedCompute,
        List.length_nil, entryNotice, createdCount]
      cases lastCheck with
      | none => simp
      | some prev =>
        cases hl : lookupFile prev e.1 with
        | some old =>
          simp only [hl]
          split_ifs <;> simp_all
        | none => simp only [hl]; simp
    simp only [runWalk, hp]
    rw [ih _ hes]
    simp [createdCount, forwardNotices, entryNotice, Nat.add_assoc,
      List.append_assoc]

/-- With a nil previous snapshot the walk emits nothing, counts nothing and
collects exactly the matched entries. -/
theorem runWalk_none (pattern : List GoRegexp)
    (entries : List (String × FileInfo)) (acc : CycleAcc) :
    runWalk none pattern entries acc
      = (matchedEntries pattern entries).map
          (fun v => ⟨acc.visited ++ v, acc.created, acc.notices⟩) := by
  induction entries generalizing acc with
  | nil => simp [runWalk, matchedEntries]
  | cons e es ih =>
    by_cases hdir : e.2.isDir
    · simp only [runWalk, processEntry, matchedEntries, hdir, if_true]
      exact ih acc
    · simp only [runWalk, processEntry, matchedEntries, hdir,
        Bool.false_eq_true, if_false]
      cases hm : matchedCompute pattern e.1 with
      | none => simp
      | some b =>
        cases b
        · simpa using ih acc
        · have hstep := ih
            (⟨acc.visited ++ [(e.1, e.2)], acc.created, acc.notices⟩ : CycleAcc)
          cases hme : matchedEntries pattern es with
          | none => rw [hme] at hstep; simp [hstep]
          | some v => rw [hme] at hstep; simp [hstep, List.append_assoc]

theorem forwardNotices_nil_of (lastCheck : Option Snapshot)
    (l : List (String × FileInfo))
    (h : ∀ e ∈ l, entryNotice lastCheck e = []) :
    forwardNotices lastCheck l = [] := by
  induction l with
  | nil => rfl
  | cons e es ih =>
    simp [forwardNotices, h e (by simp),
      ih fun x hx => h x (by simp [hx])]

theorem createdCount_zero_of (prev : Snapshot)
    (l : List (String × FileInfo))
    (h : ∀ e ∈ l, (lookupFile prev e.1).isSome = true) :
    createdCount (some prev) l = 0 := by
  induction l with
  | nil => rfl
  | cons e es ih =>
    simp [createdCount, h e (by simp),
      ih fun x hx => h x (by simp [hx])]

/-- A successful cycle with an empty pattern set and no directories among
the entries, in closed form. -/
theorem scanCycle_flat (prev : Snapshot) (entries : List (String × FileInfo))
    (werr : Option String) (hd : ∀ e ∈ entries, e.2.isDir = false) :
    scanCycle (some prev) [] entries werr
      = some ⟨forwardNotices (some prev) entries ++
                (if (prev.length : Int) > (entries.length : Int)
                      - (createdCount (some prev) entries : Int)
                 then removalPass prev entries else []),
              entries, werr⟩ := by
  unfold scanCycle
  rw [runWalk_flat (some prev) entries ⟨[], 0, []⟩ hd]
  simp

theorem forwardNotices_filter_not_mem (lastCheck : Option Snapshot)
    (l : List (String × FileInfo)) (f : String)
    (hf : f ∉ l.map Prod.fst) :
    noticesFor f (forwardNotices lastCheck l) = [] := by
  induction l with
  | nil => rfl
  | cons e es ih =>
    rw [List.map_cons] at hf
    have h1 : f ≠ e.1 := fun hc => hf (hc ▸ List.mem_cons_self e.1 _)
    have h2 : f ∉ es.map Prod.fst := fun hc => hf (List.mem_cons_of_mem _ hc)
    unfold noticesFor forwardNotices
    rw [List.filter_append]
    have hhead : (entryNotice lastCheck e).filter (fun n => n.path == f) = [] := by
      rw [List.filter_eq_nil_iff]
      intro n hn
      have hp := entryNotice_path lastCheck e n hn
      simp [hp, Ne.symm h1]
    rw [hhead]
    simpa [noticesFor] using ih h2

theorem forwardNotices_filter_mem (lastCheck : Option Snapshot)
    (l : List (String × FileInfo)) (f : String) (i : FileInfo)
    (hnd : (l.map Prod.fst).Nodup) (hmem : (f, i) ∈ l) :
    noticesFor f (forwardNotices lastCheck l)
      = entryNotice lastCheck (f, i) := by
  induction l with
  | nil => cases hmem
  | cons e es ih =>
    rw [List.map_cons, List.nodup_cons] at hnd
    unfold noticesFor forwardNotices
    rw [List.filter_append]
    rcases List.mem_cons.mp hmem with h | h
    · subst h
      have hhead : (entryNotice lastCheck (f, i)).filter (fun n => n.path == f)
          = entryNotice lastCheck (f, i) := by
        rw [List.filter_eq_self]
        intro n hn
        have hp := entryNotice_path lastCheck (f, i) n hn
        simp [hp]
      have htail : noticesFor f (forwardNotices lastCheck es) = [] :=
        forwardNotices_filter_not_mem lastCheck es f hnd.1
      unfold noticesFor at htail
      rw [hhead, htail, List.append_nil]
    · have hf_in : f ∈ es.map Prod.fst := List.mem_map_of_mem Prod.fst h
      have hne : e.1 ≠ f := fun hc => hnd.1 (hc ▸ hf_in)
      have hhead : (entryNotice lastCheck e).filter (fun n => n.path == f)
          = [] := by
        rw [List.filter_eq_nil_iff]
        intro n hn
        have hp := entryNotice_path lastCheck e n hn
        simp [hp, hne]
      have htail := ih hnd.2 h
      unfold noticesFor at htail
      rw [hhead, htail, List.nil_append]

theorem removalPass_filter_visited (prev visited : Snapshot) (f : String)
    (hf : f ∈ visited.map Prod.fst) :
    (removalPass prev visited).filter (fun n => n.path == f) = [] := by
  rw [List.filter_eq_nil_iff]
  intro n hn
  unfold removalPass at hn
  rcases List.mem_map.mp hn with ⟨p, hp, rfl⟩
  rcases List.mem_filter.mp hp with ⟨hpmem, hpnone⟩
  intro hbeq
  have hpf : p.1 = f := by simpa using hbeq
  rw [hpf] at hpnone
  have hs := (lookupFile_isSome_iff visited f).mpr hf
  rw [Option.isNone_iff_eq_none] at hpnone
  rw [hpnone] at hs
  cases hs

/-! ### Forward diff rule (C6) -/

/-- C6: in a successful cycle over distinct non-directory entries, an
identity present in both snapshots gets exactly one Update notice when its
modification time moved strictly forward or (else) its size changed, and no
notice otherwise; an identity present only in the current snapshot (with a
previous snapshot existing) gets exactly one Create notice. -/
theorem diff_forward_update_create_rule (prev : Snapshot)
    (entries : List (String × FileInfo)) (werr : Option String)
    (res : CycleResult)
    (hd : ∀ e ∈ entries, e.2.isDir = false)
    (hne : (entries.map Prod.fst).Nodup)
    (h : scanCycle (some prev) [] entries werr = some res) :
    (∀ f old new, lookupFile prev f = some old → (f, new) ∈ entries →
      noticesFor f res.notices
        = if old.modTime < new.modTime ∨ old.size ≠ new.size
          then [⟨f, FileUpdate, new⟩] else [])
    ∧ (∀ f new, lookupFile prev f = none → (f, new) ∈ entries →
      noticesFor f res.notices = [⟨f, FileCreate, new⟩]) := by
  rw [scanCycle_flat prev entries werr hd] at h
  simp only [Option.some.injEq] at h
  subst h
  have hsplit : ∀ f new, (f, new) ∈ entries →
      noticesFor f (forwardNotices (some prev) entries ++
        (if (prev.length : Int) > (entries.length : Int)
              - (createdCount (some prev) entries : Int)
         then removalPass prev entries else []))
        = entryNotice (some prev) (f, new) := by
    intro f new hmem
    have hfk : f ∈ entries.map Prod.fst := List.mem_map_of_mem Prod.fst hmem
    have hfwd := forwardNotices_filter_mem (some prev) entries f new hne hmem
    unfold noticesFor at hfwd ⊢
    rw [List.filter_append, hfwd]
    have hrem : (if (prev.length : Int) > (entries.length : Int)
              - (createdCount (some prev) entries : Int)
         then removalPass prev entries else []).filter
        (fun n => n.path == f) = [] := by
      split_ifs
      · exact removalPass_filter_visited prev entries f hfk
      · rfl
    rw [hrem, List.append_nil]
  constructor
  · intro f old new hold hmem
    rw [hsplit f new hmem]
    simp only [entryNotice, hold]
    by_cases h1 : old.modTime < new.modTime
    · rw [if_pos h1, if_pos (Or.inl h1)]
    · by_cases h2 : old.size ≠ new.size
      · rw [if_neg h1, if_pos h2, if_pos (Or.inr h2)]
      · rw [if_neg h1, if_neg h2, if_neg (by tauto)]
  · intro f new hnone hmem
    rw [hsplit f new hmem]
    simp only [entryNotice, hnone]

theorem diff_forward_update_create_rule_witness :
    scanCycle (some [("a", ⟨1, 10, false⟩)]) [] [("a", ⟨2, 10, false⟩)] none
      = some ⟨[⟨"a", FileUpdate, ⟨2, 10, false⟩⟩], [("a", ⟨2, 10, false⟩)],
              none⟩ ∧
    noticesFor "a" [⟨"a", FileUpdate, ⟨2, 10, false⟩⟩]
      = [⟨"a", FileUpdate, ⟨2, 10, false⟩⟩] := by
  refine ⟨by decide, ?_⟩
  have h := (diff_forward_update_create_rule [("a", ⟨1, 10, false⟩)]
    [("a", ⟨2, 10, false⟩)] none
    ⟨[⟨"a", FileUpdate, ⟨2, 10, false⟩⟩], [("a", ⟨2, 10, false⟩)], none⟩
    (by decide) (by decide) (by decide)).1 "a" ⟨1, 10, false⟩ ⟨2, 10, false⟩
    (by decide) (by decide)
  rw [if_pos (Or.inl (by norm_num))] at h
  exact h

/-! ### Removal pass and its guard (C7) -/

theorem lookupFile_some_mem (l : Snapshot) (f : String) (i : FileInfo)
    (h : lookupFile l f = some i) : (f, i) ∈ l := by
  induction l with
  | nil => simp [lookupFile] at h
  | cons p rest ih =>
    obtain ⟨g, j⟩ := p
    by_cases hgf : g = f
    · subst hgf
      rw [lookupFile, if_pos rfl] at h
      have hji := Option.some.inj h
      subst hji
      exact List.mem_cons_self _ _
    · rw [lookupFile, if_neg hgf] at h
      exact List.mem_cons_of_mem _ (ih h)

theorem createdCount_add_filter_length (prev : Snapshot)
    (l : List (String × FileInfo)) :
    createdCount (some prev) l
      + (l.filter (fun e => (lookupFile prev e.1).isSome)).length
      = l.length := by
  induction l with
  | nil => rfl
  | cons e es ih =>
    cases hs : (lookupFile prev e.1).isSome <;>
      simp only [createdCount, List.filter_cons, hs, List.length_cons,
        if_true, if_false, Bool.false_eq_true] <;>
      omega

theorem map_fst_filter_lookup (prev : Snapshot)
    (l : List (String × FileInfo)) :
    (l.filter (fun e => (lookupFile prev e.1).isSome)).map Prod.fst
      = (l.map Prod.fst).filter (fun f => (lookupFile prev f).isSome) := by
  induction l with
  | nil => rfl
  | cons e es ih =>
    cases hs : (lookupFile prev e.1).isSome <;>
      simp [List.filter_cons, hs, ih]

/-- The removal-pass guard `len(s.lastCheck) > (len(visited) - created)` is
exact: over distinct keys it holds if and only if some previous identity is
absent from the current snapshot. -/
theorem removal_guard_iff (prev : Snapshot)
    (entries : List (String × FileInfo))
    (hnp : (prev.map Prod.fst).Nodup)
    (hne : (entries.map Prod.fst).Nodup) :
    ((prev.length : Int) > (entries.length : Int)
        - (createdCount (some prev) entries : Int))
      ↔ ∃ p ∈ prev, lookupFile entries p.1 = none := by
  have hsplit := createdCount_add_filter_length prev entries
  have hflen : (entries.filter (fun e => (lookupFile prev e.1).isSome)).length
      = ((entries.map Prod.fst).filter
          (fun f => (lookupFile prev f).isSome)).length := by
    rw [← map_fst_filter_lookup, List.length_map]
  set kIn : List String :=
    (entries.map Prod.fst).filter (fun f => (lookupFile prev f).isSome)
    with hkdef
  have hknd : kIn.Nodup := hne.filter _
  have hkcard : kIn.toFinset.card = kIn.length :=
    List.toFinset_card_of_nodup hknd
  have hpcard : (prev.map Prod.fst).toFinset.card = prev.length := by
    rw [List.toFinset_card_of_nodup hnp, List.length_map]
  have hksub : kIn.toFinset ⊆ (prev.map Prod.fst).toFinset := by
    intro f hf
    rw [List.mem_toFinset] at hf ⊢
    rw [hkdef, List.mem_filter] at hf
    exact (lookupFile_isSome_iff prev f).mp hf.2
  constructor
  · intro hguard
    by_contra hno
    push_neg at hno
    have hrev : (prev.map Prod.fst).toFinset ⊆ kIn.toFinset := by
      intro f hf
      rw [List.mem_toFinset] at hf ⊢
      rcases List.mem_map.mp hf with ⟨p, hp, rfl⟩
      have h1 : lookupFile entries p.1 ≠ none := hno p hp
      have h2 : p.1 ∈ entries.map Prod.fst := by
        by_contra hc
        exact h1 ((lookupFile_eq_none_iff entries p.1).mpr hc)
      rw [hkdef, List.mem_filter]
      refine ⟨h2, (lookupFile_isSome_iff prev p.1).mpr ?_⟩
      exact List.mem_map_of_mem Prod.fst hp
    have hle : prev.length ≤ kIn.length := by
      rw [← hpcard, ← hkcard]
      exact Finset.card_le_card hrev
    omega
  · rintro ⟨p, hp, hpnone⟩
    have hinP : p.1 ∈ (prev.map Prod.fst).toFinset :=
      List.mem_toFinset.mpr (List.mem_map_of_mem Prod.fst hp)
    have hnotK : p.1 ∉ kIn.toFinset := by
      rw [List.mem_toFinset, hkdef, List.mem_filter]
      rintro ⟨hmem, hrest⟩
      exact (lookupFile_eq_none_iff entries p.1).mp hpnone hmem
    have hlt : kIn.toFinset.card < (prev.map Prod.fst).toFinset.card :=
      Finset.card_lt_card ((Finset.ssubset_iff_of_subset hksub).mpr
        ⟨p.1, hinP, hnotK⟩)
    rw [hkcard, hpcard] at hlt
    omega

theorem removalPass_filter_not_prev (prev visited : Snapshot) (f : String)
    (hf : f ∉ prev.map Prod.fst) :
    (removalPass prev visited).filter (fun n => n.path == f) = [] := by
  rw [List.filter_eq_nil_iff]
  intro n hn
  unfold removalPass at hn
  rcases List.mem_map.mp hn with ⟨p, hp, rfl⟩
  intro hbeq
  have hpf : p.1 = f := by simpa using hbeq
  exact hf (hpf ▸ List.mem_map_of_mem Prod.fst (List.mem_filter.mp hp).1)

theorem removalPass_filter_removed (prev : Snapshot) (visited : Snapshot)
    (f : String) (i : FileInfo)
    (hnp : (prev.map Prod.fst).Nodup)
    (hold : lookupFile prev f = some i)
    (hnone : lookupFile visited f = none) :
    (removalPass prev visited).filter (fun n => n.path == f)
      = [⟨f, FileRemove, i⟩] := by
  induction prev with
  | nil => simp [lookupFile] at hold
  | cons p rest ih =>
    obtain ⟨g, j⟩ := p
    rw [List.map_cons, List.nodup_cons] at hnp
    by_cases hgf : g = f
    · subst hgf
      rw [lookupFile, if_pos rfl] at hold
      have hji := Option.some.inj hold
      subst hji
      have htail := removalPass_filter_not_prev rest visited g hnp.1
      have hpred : (lookupFile visited g).isNone = true := by
        simp [hnone]
      unfold removalPass at htail ⊢
      simp [List.filter_cons, hpred, htail]
    · rw [lookupFile, if_neg hgf] at hold
      have hrec := ih hnp.2 hold
      unfold removalPass at hrec ⊢
      have hgne : ¬((⟨g, FileRemove, j⟩ : FileSystemNotice).path == f) = true := by
        simpa using hgf
      cases hgn : (lookupFile visited g).isNone <;>
        simp [List.filter_cons, hgn, hgne, hrec]

theorem mem_forwardNotices (lastCheck : Option Snapshot)
    (l : List (String × FileInfo)) (n : FileSystemNotice)
    (hn : n ∈ forwardNotices lastCheck l) :
    ∃ e ∈ l, n ∈ entryNotice lastCheck e := by
  induction l with
  | nil => cases hn
  | cons e es ih =>
    simp only [forwardNotices] at hn
    rcases List.mem_append.mp hn with h | h
    · exact ⟨e, List.mem_cons_self _ _, h⟩
    · rcases ih h with ⟨x, hx, hnx⟩
      exact ⟨x, List.mem_cons_of_mem _ hx, hnx⟩

/-- C7: after the forward pass, exactly one Remove notice is emitted for
every identity present in the previous snapshot and absent from the current
one — and for no other identity; all Remove notices come after the
Create/Update notices of the forward pass, which appear in traversal
order. -/
theorem diff_removal_pass_rule (prev : Snapshot)
    (entries : List (String × FileInfo)) (werr : Option String)
    (res : CycleResult)
    (hd : ∀ e ∈ entries, e.2.isDir = false)
    (hnp : (prev.map Prod.fst).Nodup)
    (hne : (entries.map Prod.fst).Nodup)
    (h : scanCycle (some prev) [] entries werr = some res) :
    res.notices
      = forwardNotices (some prev) entries ++ removalPass prev entries
    ∧ (∀ n ∈ forwardNotices (some prev) entries,
        n.event = FileCreate ∨ n.event = FileUpdate)
    ∧ (∀ n ∈ removalPass prev entries, n.event = FileRemove)
    ∧ (∀ f i, lookupFile prev f = some i → lookupFile entries f = none →
        noticesFor f res.notices = [⟨f, FileRemove, i⟩])
    ∧ (∀ n ∈ res.notices, n.event = FileRemove →
        (lookupFile prev n.path).isSome = true
          ∧ lookupFile entries n.path = none) := by
  have hif : (if (prev.length : Int) > (entries.length : Int)
        - (createdCount (some prev) entries : Int)
      then removalPass prev entries else []) = removalPass prev entries := by
    split_ifs with hg
    · rfl
    · have hno : ¬∃ p ∈ prev, lookupFile entries p.1 = none := fun hex =>
        hg ((removal_guard_iff prev entries hnp hne).mpr hex)
      push_neg at hno
      have hfe : prev.filter (fun p => (lookupFile entries p.1).isNone)
          = [] := by
        rw [List.filter_eq_nil_iff]
        intro p hp hbad
        exact hno p hp (Option.isNone_iff_eq_none.mp hbad)
      unfold removalPass
      rw [hfe]
      rfl
  rw [scanCycle_flat prev entries werr hd] at h
  have hres := Option.some.inj h
  have hnot : res.notices
      = forwardNotices (some prev) entries ++ removalPass prev entries := by
    rw [← hres, hif]
  refine ⟨hnot, ?_, ?_, ?_, ?_⟩
  · intro n hn
    rcases mem_forwardNotices (some prev) entries n hn with ⟨e, he, hni⟩
    exact entryNotice_event (some prev) e n hni
  · intro n hn
    unfold removalPass at hn
    rcases List.mem_map.mp hn with ⟨p, hp, rfl⟩
    rfl
  · intro f i hold hnone
    have hfnot : f ∉ entries.map Prod.fst :=
      (lookupFile_eq_none_iff entries f).mp hnone
    unfold noticesFor
    rw [hnot, List.filter_append]
    have h1 := forwardNotices_filter_not_mem (some prev) entries f hfnot
    unfold noticesFor at h1
    rw [h1, List.nil_append]
    exact removalPass_filter_removed prev entries f i hnp hold hnone
  · intro n hn hev
    rw [hnot] at hn
    rcases List.mem_append.mp hn with hf | hr
    · rcases mem_forwardNotices (some prev) entries n hf with ⟨e, he, hni⟩
      rcases entryNotice_event (some prev) e n hni with hc | hu
      · exact absurd (hev.symm.trans hc) (by decide)
      · exact absurd (hev.symm.trans hu) (by decide)
    · unfold removalPass at hr
      rcases List.mem_map.mp hr with ⟨p, hp, rfl⟩
      rcases List.mem_filter.mp hp with ⟨hpmem, hpnone⟩
      constructor
      · exact (lookupFile_isSome_iff prev p.1).mpr
          (List.mem_map_of_mem Prod.fst hpmem)
      · exact Option.isNone_iff_eq_none.mp hpnone

theorem diff_removal_pass_rule_witness :
    scanCycle (some [("a", ⟨1, 10, false⟩), ("b", ⟨1, 20, false⟩)]) []
        [("a", ⟨1, 10, false⟩)] none
      = some ⟨[⟨"b", FileRemove, ⟨1, 20, false⟩⟩], [("a", ⟨1, 10, false⟩)],
              none⟩ ∧
    noticesFor "b" [⟨"b", FileRemove, ⟨1, 20, false⟩⟩]
      = [⟨"b", FileRemove, ⟨1, 20, false⟩⟩] := by
  refine ⟨by decide, ?_⟩
  have h := (diff_removal_pass_rule
    [("a", ⟨1, 10, false⟩), ("b", ⟨1, 20, false⟩)]
    [("a", ⟨1, 10, false⟩)] none
    ⟨[⟨"b", FileRemove, ⟨1, 20, false⟩⟩], [("a", ⟨1, 10, false⟩)], none⟩
    (by decide) (by decide) (by decide) (by decide)).2.2.2.1 "b"
    ⟨1, 20, false⟩ (by decide) (by decide)
  exact h

/-! ### First-scan baseline (C8) and idempotence (C9) -/

/-- C8: on the very first scan (`lastCheck` is the nil map) a successful
cycle emits no notices of any kind, and every matched item is installed as
the baseline snapshot. -/
theorem first_scan_emits_no_notices (pattern : List GoRegexp)
    (entries : List (String × FileInfo)) (werr : Option String)
    (res : CycleResult)
    (h : scanCycle none pattern entries werr = some res) :
    res.notices = [] ∧ matchedEntries pattern entries = some res.lastCheck := by
  unfold scanCycle at h
  rw [runWalk_none pattern entries ⟨[], 0, []⟩] at h
  cases hm : matchedEntries pattern entries with
  | none => rw [hm] at h; simp at h
  | some v =>
    rw [hm] at h
    simp only [Option.map_some', Option.some.injEq] at h
    subst h
    exact ⟨rfl, rfl⟩

theorem first_scan_emits_no_notices_witness :
    scanCycle none [] [("a", ⟨1, 10, false⟩)] none
        = some ⟨[], [("a", ⟨1, 10, false⟩)], none⟩ ∧
    (⟨[], [("a", ⟨1, 10, false⟩)], none⟩ : CycleResult).notices = [] ∧
    matchedEntries [] [("a", ⟨1, 10, false⟩)]
      = some (⟨[], [("a", ⟨1, 10, false⟩)], none⟩ : CycleResult).lastCheck :=
  ⟨by decide,
   (first_scan_emits_no_notices [] [("a", ⟨1, 10, false⟩)] none
      ⟨[], [("a", ⟨1, 10, false⟩)], none⟩ (by decide)).1,
   (first_scan_emits_no_notices [] [("a", ⟨1, 10, false⟩)] none
      ⟨[], [("a", ⟨1, 10, false⟩)], none⟩ (by decide)).2⟩

/-- C9: a scan cycle observing exactly the items of the previous snapshot
(identical identities, modification times and sizes) emits no Create, Update
or Remove notice. -/
theorem diff_idempotent_on_unchanged_tree (entries : Snapshot)
    (werr : Option String) (res : CycleResult)
    (hd : ∀ e ∈ entries, e.2.isDir = false)
    (hnd : (entries.map Prod.fst).Nodup)
    (h : scanCycle (some entries) [] entries werr = some res) :
    res.notices = [] := by
  have hen : ∀ e ∈ entries, entryNotice (some entries) e = [] := by
    intro e he
    simp only [entryNotice]
    rw [lookupFile_mem entries e hnd he]
    simp
  have hfwd := forwardNotices_nil_of (some entries) entries hen
  have hcc : createdCount (some entries) entries = 0 :=
    createdCount_zero_of entries entries fun e he => by
      rw [lookupFile_mem entries e hnd he]; rfl
  unfold scanCycle at h
  rw [runWalk_flat (some entries) entries ⟨[], 0, []⟩ hd] at h
  rw [hfwd, hcc] at h
  simp only [List.nil_append, Nat.add_zero, Option.some.injEq] at h
  simp only [Nat.cast_zero, gt_iff_lt, sub_zero, lt_self_iff_false,
    if_false] at h
  subst h
  rfl

theorem diff_idempotent_witness :
    scanCycle (some [("a", ⟨1, 10, false⟩)]) [] [("a", ⟨1, 10, false⟩)] none
        = some ⟨[], [("a", ⟨1, 10, false⟩)], none⟩ ∧
    (⟨[], [("a", ⟨1, 10, false⟩)], none⟩ : CycleResult).notices = [] :=
  ⟨by decide,
   diff_idempotent_on_unchanged_tree [("a", ⟨1, 10, false⟩)] none
     ⟨[], [("a", ⟨1, 10, false⟩)], none⟩ (by decide) (by decide) (by decide)⟩

/-! ### Snapshot installation on a failed traversal (C1) -/

/-- C1 counterexample: previous snapshot {a, b}; the traversal aborts with a
non-nil error after visiting only `a`.  The cycle nevertheless installs the
half-populated map {a} as `s.lastCheck` (and even emits a spurious Remove for
`b`), so the previous-snapshot mapping is not left unchanged. -/
theorem scan_error_replaces_snapshot_counterexample :
    scanCycle (some [("a", ⟨1, 10, false⟩), ("b", ⟨1, 20, false⟩)]) []
        [("a", ⟨1, 10, false⟩)] (some "permission denied")
      = some ⟨[⟨"b", FileRemove, ⟨1, 20, false⟩⟩], [("a", ⟨1, 10, false⟩)],
              some "permission denied"⟩ ∧
    ([("a", ⟨1, 10, false⟩)] : Snapshot)
      ≠ [("a", ⟨1, 10, false⟩), ("b", ⟨1, 20, false⟩)] := by
  decide

/-- C1 (amended): a scan cycle installs the visited map as the new
`s.lastCheck` unconditionally — a cycle whose traversal reports a non-nil
error behaves exactly like the error-free cycle over the same visited
entries (same notices, same installed snapshot); only the value sent on the
status channel differs. -/
theorem scan_error_still_installs_snapshot (lastCheck : Option Snapshot)
    (pattern : List GoRegexp) (entries : List (String × FileInfo))
    (werr : Option String) (res : CycleResult)
    (h : scanCycle lastCheck pattern entries werr = some res) :
    res.walkErr = werr ∧
    scanCycle lastCheck pattern entries none
      = some ⟨res.notices, res.lastCheck, none⟩ := by
  unfold scanCycle at h ⊢
  cases hw : runWalk lastCheck pattern entries ⟨[], 0, []⟩ with
  | none =>
    rw [hw] at h
    simp at h
  | some acc =>
    rw [hw] at h
    simp only [Option.some.injEq] at h
    subst h
    exact ⟨rfl, rfl⟩

theorem scan_error_still_installs_snapshot_witness :
    scanCycle (some [("a", ⟨1, 10, false⟩), ("b", ⟨1, 20, false⟩)]) []
        [("a", ⟨1, 10, false⟩)] none
      = some ⟨[⟨"b", FileRemove, ⟨1, 20, false⟩⟩], [("a", ⟨1, 10, false⟩)],
              none⟩ := by
  have h := scan_error_still_installs_snapshot
    (some [("a", ⟨1, 10, false⟩), ("b", ⟨1, 20, false⟩)]) []
    [("a", ⟨1, 10, false⟩)] (some "permission denied")
    ⟨[⟨"b", FileRemove, ⟨1, 20, false⟩⟩], [("a", ⟨1, 10, false⟩)],
     some "permission denied"⟩ (by decide)
  exact h.2

/-! ### Serialization of scan cycles (C5) and the shutdown status (C4) -/

/-- C5: scan cycles are strictly serialized.  In every reachable state of
the dispatch loop at most one scan request is outstanding, and while one is
outstanding the timer is disabled (`timeTick = nil`), so the tick branch —
the only transition that hands the notice buffer to the worker — cannot
fire again until the worker has reported the cycle status, the sole
transition that re-arms the timer. -/
theorem scan_cycles_strictly_serialized (s : LoopState)
    (h : LoopReachable s) :
    s.inFlight ≤ 1 ∧ (s.inFlight = 1 → s.timerArmed = false) := by
  induction h with
  | init => simp [initLoop]
  | step hr hstep ih =>
    cases hstep with
    | closing halive h1 => simpa using ih
    | tick halive ht hn hb hw => simp
    | report e halive hb => simp
    | workerExit halive hn hb hw => simpa using ih
    | statusClosed halive hw hs => simpa using ih

theorem scan_cycles_strictly_serialized_witness :
    (⟨false, false, 1, false, false, none, none⟩ : LoopState).inFlight ≤ 1 ∧
    ((⟨false, false, 1, false, false, none, none⟩ : LoopState).inFlight = 1 →
      (⟨false, false, 1, false, false, none, none⟩ : LoopState).timerArmed
        = false) :=
  scan_cycles_strictly_serialized _
    (LoopReachable.step LoopReachable.init
      (LoopStep.tick initLoop rfl rfl rfl rfl rfl))

/-- The run behind `stopTraceFinal` is reachable: tick, Stop while the scan
is in flight, the final cycle reports "scan failed", the worker exits, the
loop releases the stopper. -/
theorem stopTraceFinal_reachable : LoopReachable stopTraceFinal := by
  have h1 : LoopReachable
      (⟨false, false, 1, false, false, none, none⟩ : LoopState) :=
    LoopReachable.step LoopReachable.init
      (LoopStep.tick initLoop rfl rfl rfl rfl rfl)
  have h2 : LoopReachable
      (⟨false, true, 1, false, true, none, none⟩ : LoopState) :=
    LoopReachable.step h1 (LoopStep.closing _ rfl rfl)
  have h3 : LoopReachable
      (⟨true, true, 0, false, true, none,
        some (some "scan failed")⟩ : LoopState) :=
    LoopReachable.step h2 (LoopStep.report _ (some "scan failed") rfl rfl)
  have h4 : LoopReachable
      (⟨true, true, 0, true, true, none,
        some (some "scan failed")⟩ : LoopState) :=
    LoopReachable.step h3 (LoopStep.workerExit _ rfl rfl rfl rfl)
  exact LoopReachable.step h4 (LoopStep.statusClosed _ rfl rfl rfl)

/-- C4 counterexample: a complete concrete run of the dispatch loop in which
the worker reported the fatal status "scan failed" during its final cycle,
yet the value released to the caller of Stop is the literal nil
(`returning <- nil`), so Stop returns nil — the claimed "non-nil if and only
if the final cycle failed" is false. -/
theorem stop_returns_nil_after_error_cycle :
    LoopReachable stopTraceFinal ∧
    stopTraceFinal.lastReport = some (some "scan failed") ∧
    stopTraceFinal.released = some none ∧
    stopReturn none = none :=
  ⟨stopTraceFinal_reachable, rfl, rfl, rfl⟩

/-- C4 (amended): Stop blocks until the pipeline is fully terminated and
always returns nil.  In every reachable state, if the loop has released the
caller of Stop then the worker had already exited and shutdown had been
requested (Stop was blocked until then), the released value is the literal
nil, and Stop returns nil — whatever status the final cycle reported. -/
theorem stop_blocks_and_returns_nil (s : LoopState) (h : LoopReachable s)
    (v : Option String) (hrel : s.released = some v) :
    s.workerExited = true ∧ s.stopRequested = true ∧ v = none ∧
    stopReturn v = none := by
  revert hrel
  induction h with
  | init =>
    intro hrel
    cases hrel
  | @step sp tp hr hstep ih =>
    intro hrel
    cases hstep with
    | closing halive h1 =>
      have hrel2 : sp.released = some v := hrel
      rw [halive] at hrel2
      exact Option.noConfusion hrel2
    | tick halive ht hn hb hw =>
      have hrel2 : sp.released = some v := hrel
      rw [halive] at hrel2
      exact Option.noConfusion hrel2
    | report e halive hb =>
      have hrel2 : sp.released = some v := hrel
      rw [halive] at hrel2
      exact Option.noConfusion hrel2
    | workerExit halive hn hb hw =>
      have hrel2 : sp.released = some v := hrel
      rw [halive] at hrel2
      exact Option.noConfusion hrel2
    | statusClosed halive hw hs =>
      have hv : (some (none : Option String)) = some v := hrel
      have hvn : v = none := (Option.some.inj hv).symm
      subst hvn
      exact ⟨hw, hs, rfl, rfl⟩

theorem stop_blocks_and_returns_nil_witness :
    stopTraceFinal.released = some none ∧
    stopTraceFinal.workerExited = true ∧
    stopTraceFinal.stopRequested = true ∧
    stopReturn none = none :=
  have h := stop_blocks_and_returns_nil stopTraceFinal
    stopTraceFinal_reachable none rfl
  ⟨rfl, h.1, h.2.1, h.2.2.2⟩

end Fsmonitor
